import Mathlib

/-!
Verification of the usage-data aggregation engine of `claude-token-counter`
(`src/claude_token_counter/core/token_data.py`).

Modelling conventions:
* Python `float` arithmetic is modelled by `ℚ` (exact real arithmetic); every
  numeric identity claimed here is exact in both models.
* Token counts are Python `int`s, modelled by `ℤ`; the data-model precondition
  "non-negative" is carried as an explicit hypothesis where a claim needs it.
* JSON values are modelled by an inductive `Json` type; a line of a JSONL file
  is `Option Json` (`none` = the line fails `json.loads`), and a file is
  `Option (List (Option Json))` (`none` = the file cannot be opened).
* Timestamp parsing / timezone conversion (`get_local_datetime`) is abstracted
  as a function `toLocal : String → Option ℚ` giving the local naive time in
  minutes (rational, so sub-minute precision is kept); `now : ℚ` is the
  caller-supplied current local time in the same scale.  Local clock time is
  measured from a local midnight, so hour-of-day is `⌊t / 60⌋ % 24`.
-/

namespace TokenCounter

/-- A normalized usage record, mirroring the dict built in
`TokenData.parse_jsonl_file` (token_data.py lines 66-75). -/
structure UsageRecord where
  model : String
  timestamp : String
  input_tokens : Int
  output_tokens : Int
  cache_creation_input_tokens : Int
  cache_read_input_tokens : Int
  session_id : String
  project_dir : String
deriving DecidableEq, Repr

/-- One row of the static pricing table: four per-million-token rates. -/
structure Rates where
  input : ℚ
  output : ℚ
  cache_write : ℚ
  cache_read : ℚ
deriving DecidableEq, Repr

/-- `PRICING` (token_data.py lines 12-31), as an association list keyed by
model identifier.  `3.75 = 15/4`, `0.30 = 3/10`, `18.75 = 75/4`, `1.50 = 3/2`. -/
def PRICING : List (String × Rates) :=
  [ ("claude-sonnet-4-20250514",
      { input := 3, output := 15, cache_write := 15/4, cache_read := 3/10 }),
    ("claude-3-5-sonnet-20241022",
      { input := 3, output := 15, cache_write := 15/4, cache_read := 3/10 }),
    ("claude-3-opus-20240229",
      { input := 15, output := 75, cache_write := 75/4, cache_read := 3/2 }) ]

/-- The default rates: `PRICING['claude-sonnet-4-20250514']`. -/
def defaultRates : Rates :=
  { input := 3, output := 15, cache_write := 15/4, cache_read := 3/10 }

/-- `PRICING.get(model, PRICING['claude-sonnet-4-20250514'])`
(token_data.py line 101): exact-match lookup with fallback to the default
model's rates. -/
def lookupRates (model : String) : Rates :=
  ((PRICING.lookup model).getD defaultRates)

/-- The cost formula of `calculate_cost` for a given rate row:
`Σ over the four categories of (count / 1_000_000 × rate)`. -/
def costWith (p : Rates) (e : UsageRecord) : ℚ :=
  (e.input_tokens / 1000000) * p.input
    + (e.output_tokens / 1000000) * p.output
    + (e.cache_creation_input_tokens / 1000000) * p.cache_write
    + (e.cache_read_input_tokens / 1000000) * p.cache_read

/-- `TokenData.calculate_cost` (token_data.py lines 98-108). -/
def calculate_cost (e : UsageRecord) : ℚ :=
  costWith (lookupRates e.model) e

/-- Total token count of a record: sum of all four categories (as computed at
token_data.py lines 192-193 and 221-222). -/
def totalTokens (e : UsageRecord) : Int :=
  e.input_tokens + e.output_tokens
    + e.cache_creation_input_tokens + e.cache_read_input_tokens

/-- A convenient concrete record builder for tests and witnesses. -/
def mkRecord (model timestamp : String) (i o cw cr : Int) : UsageRecord :=
  { model := model, timestamp := timestamp, input_tokens := i,
    output_tokens := o, cache_creation_input_tokens := cw,
    cache_read_input_tokens := cr, session_id := "", project_dir := "" }

/-- Every rate row reachable through `lookupRates` has four non-negative
rates (checked over the concrete `PRICING` table and the default row). -/
lemma lookupRates_nonneg (m : String) :
    0 ≤ (lookupRates m).input ∧ 0 ≤ (lookupRates m).output
      ∧ 0 ≤ (lookupRates m).cache_write ∧ 0 ≤ (lookupRates m).cache_read := by
  unfold lookupRates PRICING defaultRates
  simp only [List.lookup]
  split
  · norm_num
  · split
    · norm_num
    · split <;> norm_num

example :
    calculate_cost (mkRecord "claude-sonnet-4-20250514" "" 1000000 0 0 0) = 3 := by
  have h : lookupRates "claude-sonnet-4-20250514" = defaultRates := by rfl
  norm_num [calculate_cost, costWith, mkRecord, h, defaultRates]

example :
    calculate_cost (mkRecord "no-such-model" "" 1000000 0 0 0) = 3 := by
  have h : lookupRates "no-such-model" = defaultRates := by rfl
  norm_num [calculate_cost, costWith, mkRecord, h, defaultRates]

/-- C1: `cost(r)` is the four-category rate formula, with rates looked up by
exact match on `r.model` in the static pricing table and any miss falling back
to the default model's (`'claude-sonnet-4-20250514'`) rates; when all four
token counts are non-negative, `cost(r) ≥ 0`; when all four counts are zero,
`cost(r) = 0`; and a `'claude-sonnet-4-20250514'` record with
`input_tokens = 1_000_000` and the other counts zero costs exactly `3`. -/
theorem C1_cost_formula (e : UsageRecord) :
    calculate_cost e = costWith (lookupRates e.model) e
    ∧ ((PRICING.lookup e.model) = none → lookupRates e.model = defaultRates)
    ∧ (∀ p, (PRICING.lookup e.model) = some p → lookupRates e.model = p)
    ∧ (0 ≤ e.input_tokens → 0 ≤ e.output_tokens →
        0 ≤ e.cache_creation_input_tokens → 0 ≤ e.cache_read_input_tokens →
        0 ≤ calculate_cost e)
    ∧ (e.input_tokens = 0 → e.output_tokens = 0 →
        e.cache_creation_input_tokens = 0 → e.cache_read_input_tokens = 0 →
        calculate_cost e = 0)
    ∧ calculate_cost (mkRecord "claude-sonnet-4-20250514" "" 1000000 0 0 0)
        = 3 := by
  refine ⟨rfl, ?_, ?_, ?_, ?_, ?_⟩
  · intro h; simp [lookupRates, h]
  · intro p h; simp [lookupRates, h]
  · intro hi ho hcw hcr
    rcases lookupRates_nonneg e.model with ⟨h1, h2, h3, h4⟩
    unfold calculate_cost costWith
    have i1 : (0:ℚ) ≤ e.input_tokens := by exact_mod_cast hi
    have i2 : (0:ℚ) ≤ e.output_tokens := by exact_mod_cast ho
    have i3 : (0:ℚ) ≤ e.cache_creation_input_tokens := by exact_mod_cast hcw
    have i4 : (0:ℚ) ≤ e.cache_read_input_tokens := by exact_mod_cast hcr
    positivity
  · intro hi ho hcw hcr
    unfold calculate_cost costWith
    rw [hi, ho, hcw, hcr]
    push_cast
    ring
  · have h : lookupRates "claude-sonnet-4-20250514" = defaultRates := by rfl
    norm_num [calculate_cost, costWith, mkRecord, h, defaultRates]

/-- Witness for C1 at a concrete record with non-negative counts. -/
theorem C1_cost_formula_witness :
    0 ≤ calculate_cost (mkRecord "claude-3-opus-20240229" "" 7 5 3 2) :=
  ((C1_cost_formula (mkRecord "claude-3-opus-20240229" "" 7 5 3 2)).2.2.2.1
    (by decide) (by decide) (by decide) (by decide))

/-! ### Association-list grouping (the `defaultdict` pattern)

`get_summary_stats` and `get_hourly_usage` both build a dict by
update-or-insert while iterating over records.  We model Python dicts as
insertion-ordered association lists with a generic update-or-insert fold. -/

/-- Lookup in an insertion-ordered association list (Python `d[k]` /
`k in d`). -/
def alLookup {κ σ : Type} [DecidableEq κ] (q : κ) : List (κ × σ) → Option σ
  | [] => none
  | (k, s) :: rest => if k = q then some s else alLookup q rest

/-- Update-or-insert: apply `f` to the value at key `k` (defaulting to `z`
when `k` is absent, as a `defaultdict` does), keeping insertion order and
appending a fresh key at the end (Python dict insertion order). -/
def alUpdate {κ σ : Type} [DecidableEq κ] (k : κ) (f : σ → σ) (z : σ) :
    List (κ × σ) → List (κ × σ)
  | [] => [(k, f z)]
  | (k', s) :: rest =>
      if k' = k then (k', f s) :: rest else (k', s) :: alUpdate k f z rest

lemma alLookup_alUpdate {κ σ : Type} [DecidableEq κ] (k q : κ) (f : σ → σ)
    (z : σ) (ms : List (κ × σ)) :
    alLookup q (alUpdate k f z ms) =
      if k = q then some (f ((alLookup q ms).getD z)) else alLookup q ms := by
  induction ms with
  | nil =>
      by_cases h : k = q <;> simp [alUpdate, alLookup, h]
  | cons p rest ih =>
      obtain ⟨k', s⟩ := p
      by_cases h1 : k' = k
      · subst h1
        by_cases h2 : k' = q <;> simp [alUpdate, alLookup, h2]
      · by_cases h2 : k' = q
        · subst h2
          have : ¬ k = k' := fun h => h1 h.symm
          simp [alUpdate, alLookup, h1, this]
        · simp [alUpdate, alLookup, h1, h2, ih]

/-- Keys of the association list after an update: same list when the key is
already present, otherwise the key is appended. -/
lemma alUpdate_keys {κ σ : Type} [DecidableEq κ] (k : κ) (f : σ → σ) (z : σ)
    (ms : List (κ × σ)) :
    (alUpdate k f z ms).map Prod.fst =
      if (alLookup k ms).isSome then ms.map Prod.fst
      else ms.map Prod.fst ++ [k] := by
  induction ms with
  | nil => simp [alUpdate, alLookup]
  | cons p rest ih =>
      obtain ⟨k', s⟩ := p
      by_cases h1 : k' = k
      · subst h1
        simp [alUpdate, alLookup]
      · have h1' : ¬ k' = k := h1
        simp only [alUpdate, alLookup, if_neg h1', List.map_cons]
        rw [ih]
        by_cases h2 : (alLookup k rest).isSome <;> simp [h1, h2]

/-- One fold step of grouping: update the bucket of `key a` with `step · a`. -/
def groupStep {κ σ α : Type} [DecidableEq κ] (key : α → κ) (step : σ → α → σ)
    (z : σ) (ms : List (κ × σ)) (a : α) : List (κ × σ) :=
  alUpdate (key a) (fun s => step s a) z ms

/-- Grouping fold over a list: the Python `for`-loop over records building a
(default)dict. -/
def groupFold {κ σ α : Type} [DecidableEq κ] (key : α → κ) (step : σ → α → σ)
    (z : σ) (l : List α) : List (κ × σ) :=
  l.foldl (groupStep key step z) []

lemma foldl_stepO_some {σ α : Type} (step : σ → α → σ) (z : σ) (l : List α)
    (s : σ) :
    l.foldl (fun o a => some (step (o.getD z) a)) (some s) =
      some (l.foldl step s) := by
  induction l generalizing s with
  | nil => rfl
  | cons a rest ih => simpa using ih (step s a)

lemma alLookup_foldl_groupStep {κ σ α : Type} [DecidableEq κ] (key : α → κ)
    (step : σ → α → σ) (z : σ) (q : κ) (l : List α) (acc : List (κ × σ)) :
    alLookup q (l.foldl (groupStep key step z) acc) =
      (l.filter (fun a => key a = q)).foldl
        (fun o a => some (step (o.getD z) a)) (alLookup q acc) := by
  induction l generalizing acc with
  | nil => rfl
  | cons a rest ih =>
      simp only [List.foldl_cons, List.filter_cons]
      by_cases h : key a = q
      · simp only [h, ih, List.foldl_cons]
        rw [groupStep, alLookup_alUpdate, if_pos h]
        simp
      · simp only [h, ih]
        rw [groupStep, alLookup_alUpdate, if_neg h]
        simp [h]

/-- The central grouping lemma: looking up `q` in the grouped dict gives the
`step`-fold over exactly the elements whose key is `q` (in order), or `none`
when there are no such elements. -/
lemma alLookup_groupFold {κ σ α : Type} [DecidableEq κ] (key : α → κ)
    (step : σ → α → σ) (z : σ) (q : κ) (l : List α) :
    alLookup q (groupFold key step z l) =
      if (l.filter (fun a => key a = q)).isEmpty then none
      else some ((l.filter (fun a => key a = q)).foldl step z) := by
  rw [groupFold, alLookup_foldl_groupStep]
  rcases h : l.filter (fun a => key a = q) with _ | ⟨a, rest⟩
  · simp [alLookup]
  · simp only [List.isEmpty_cons, if_neg Bool.false_ne_true, List.foldl_cons,
      alLookup, Option.getD_none]
    exact foldl_stepO_some step z rest (step z a)

/-- Additivity of a bucket measure over the grouping fold: if `g` maps a
bucket state to a commutative monoid, sends the initial bucket to `0`, and
each step adds `h a`, then the total of `g` over all buckets equals the sum
of `h` over the list. -/
lemma sum_alUpdate {κ σ α M : Type} [DecidableEq κ] [AddCommMonoid M]
    (g : σ → M) (h : α → M) (step : σ → α → σ) (z : σ)
    (hz : g z = 0) (hstep : ∀ s a, g (step s a) = g s + h a)
    (a : α) (k : κ) (ms : List (κ × σ)) :
    ((alUpdate k (fun s => step s a) z ms).map (fun p => g p.2)).sum =
      (ms.map (fun p => g p.2)).sum + h a := by
  induction ms with
  | nil => simp [alUpdate, hstep, hz]
  | cons p rest ih =>
      obtain ⟨k', s⟩ := p
      by_cases h1 : k' = k
      · subst h1
        simp [alUpdate, hstep, add_assoc, add_comm (h a)]
      · simp only [alUpdate, if_neg h1, List.map_cons, List.sum_cons, ih]
        rw [add_assoc]

lemma sum_groupFold_aux {κ σ α M : Type} [DecidableEq κ] [AddCommMonoid M]
    (key : α → κ) (g : σ → M) (h : α → M) (step : σ → α → σ) (z : σ)
    (hz : g z = 0) (hstep : ∀ s a, g (step s a) = g s + h a)
    (l : List α) (acc : List (κ × σ)) :
    ((l.foldl (groupStep key step z) acc).map (fun p => g p.2)).sum =
      (acc.map (fun p => g p.2)).sum + (l.map h).sum := by
  induction l generalizing acc with
  | nil => simp
  | cons a rest ih =>
      simp only [List.foldl_cons, List.map_cons, List.sum_cons]
      rw [ih, groupStep, sum_alUpdate g h step z hz hstep, add_assoc]

/-- Total of a bucket measure over the grouped dict equals the sum of the
per-element contributions. -/
lemma sum_groupFold {κ σ α M : Type} [DecidableEq κ] [AddCommMonoid M]
    (key : α → κ) (g : σ → M) (h : α → M) (step : σ → α → σ) (z : σ)
    (hz : g z = 0) (hstep : ∀ s a, g (step s a) = g s + h a) (l : List α) :
    ((groupFold key step z l).map (fun p => g p.2)).sum = (l.map h).sum := by
  rw [groupFold, sum_groupFold_aux key g h step z hz hstep]
  simp

/-! ### `get_summary_stats` (token_data.py lines 121-165) -/

/-- One row of the per-model breakdown dict (token_data.py lines 143-146). -/
structure ModelStats where
  requests : Nat
  input_tokens : Int
  output_tokens : Int
  cache_creation_input_tokens : Int
  cache_read_input_tokens : Int
  cost : ℚ
deriving DecidableEq, Repr

/-- The `defaultdict` initial value for a model's row (token_data.py
lines 143-146). -/
def zeroModelStats : ModelStats :=
  { requests := 0, input_tokens := 0, output_tokens := 0,
    cache_creation_input_tokens := 0, cache_read_input_tokens := 0, cost := 0 }

/-- One iteration of the per-model accumulation loop (token_data.py
lines 148-155). -/
def addEntry (s : ModelStats) (e : UsageRecord) : ModelStats :=
  { requests := s.requests + 1,
    input_tokens := s.input_tokens + e.input_tokens,
    output_tokens := s.output_tokens + e.output_tokens,
    cache_creation_input_tokens :=
      s.cache_creation_input_tokens + e.cache_creation_input_tokens,
    cache_read_input_tokens :=
      s.cache_read_input_tokens + e.cache_read_input_tokens,
    cost := s.cost + calculate_cost e }

/-- The result shape of `get_summary_stats` (token_data.py lines 157-165). -/
structure SummaryStats where
  total_requests : Nat
  total_input : Int
  total_output : Int
  total_cache_creation : Int
  total_cache_read : Int
  total_cost : ℚ
  models : List (String × ModelStats)
deriving DecidableEq, Repr

/-- The all-zero summary returned for empty input (token_data.py
lines 125-134). -/
def emptySummary : SummaryStats :=
  { total_requests := 0, total_input := 0, total_output := 0,
    total_cache_creation := 0, total_cache_read := 0, total_cost := 0,
    models := [] }

/-- `TokenData.get_summary_stats` (token_data.py lines 121-165): totals are
sums over the record list, `models` is the `defaultdict` loop of
lines 148-155 (modelled by the grouping fold). -/
def get_summary_stats (data : List UsageRecord) : SummaryStats :=
  if data.isEmpty then emptySummary
  else
    { total_requests := data.length,
      total_input := (data.map (fun e => e.input_tokens)).sum,
      total_output := (data.map (fun e => e.output_tokens)).sum,
      total_cache_creation :=
        (data.map (fun e => e.cache_creation_input_tokens)).sum,
      total_cache_read := (data.map (fun e => e.cache_read_input_tokens)).sum,
      total_cost := (data.map calculate_cost).sum,
      models := groupFold (fun e => e.model) addEntry zeroModelStats data }

lemma summary_total_requests (data : List UsageRecord) :
    (get_summary_stats data).total_requests = data.length := by
  rcases data with _ | ⟨e, rest⟩ <;> simp [get_summary_stats, emptySummary]

lemma summary_total_input (data : List UsageRecord) :
    (get_summary_stats data).total_input
      = (data.map (fun e => e.input_tokens)).sum := by
  rcases data with _ | ⟨e, rest⟩ <;> simp [get_summary_stats, emptySummary]

lemma summary_total_output (data : List UsageRecord) :
    (get_summary_stats data).total_output
      = (data.map (fun e => e.output_tokens)).sum := by
  rcases data with _ | ⟨e, rest⟩ <;> simp [get_summary_stats, emptySummary]

lemma summary_total_cache_creation (data : List UsageRecord) :
    (get_summary_stats data).total_cache_creation
      = (data.map (fun e => e.cache_creation_input_tokens)).sum := by
  rcases data with _ | ⟨e, rest⟩ <;> simp [get_summary_stats, emptySummary]

lemma summary_total_cache_read (data : List UsageRecord) :
    (get_summary_stats data).total_cache_read
      = (data.map (fun e => e.cache_read_input_tokens)).sum := by
  rcases data with _ | ⟨e, rest⟩ <;> simp [get_summary_stats, emptySummary]

lemma summary_total_cost (data : List UsageRecord) :
    (get_summary_stats data).total_cost = (data.map calculate_cost).sum := by
  rcases data with _ | ⟨e, rest⟩ <;> simp [get_summary_stats, emptySummary]

lemma summary_models (data : List UsageRecord) :
    (get_summary_stats data).models
      = groupFold (fun e => e.model) addEntry zeroModelStats data := by
  rcases data with _ | ⟨e, rest⟩ <;> rfl

/-- Folding `addEntry` over a record list adds the list's length, field sums
and cost sum to the starting row. -/
lemma foldl_addEntry (l : List UsageRecord) (s : ModelStats) :
    l.foldl addEntry s =
      { requests := s.requests + l.length,
        input_tokens := s.input_tokens + (l.map (fun e => e.input_tokens)).sum,
        output_tokens :=
          s.output_tokens + (l.map (fun e => e.output_tokens)).sum,
        cache_creation_input_tokens := s.cache_creation_input_tokens
          + (l.map (fun e => e.cache_creation_input_tokens)).sum,
        cache_read_input_tokens := s.cache_read_input_tokens
          + (l.map (fun e => e.cache_read_input_tokens)).sum,
        cost := s.cost + (l.map calculate_cost).sum } := by
  induction l generalizing s with
  | nil => simp
  | cons e rest ih =>
      simp only [List.foldl_cons, ih, addEntry, List.map_cons, List.sum_cons,
        List.length_cons, ModelStats.mk.injEq]
      refine ⟨?_, ?_, ?_, ?_, ?_, ?_⟩ <;> ring

/-- The per-model aggregate a correct breakdown row must equal: counts and
sums over exactly the records carrying that model. -/
def modelAgg (m : String) (data : List UsageRecord) : ModelStats :=
  { requests := (data.filter (fun e => e.model = m)).length,
    input_tokens := ((data.filter (fun e => e.model = m)).map
      (fun e => e.input_tokens)).sum,
    output_tokens := ((data.filter (fun e => e.model = m)).map
      (fun e => e.output_tokens)).sum,
    cache_creation_input_tokens := ((data.filter (fun e => e.model = m)).map
      (fun e => e.cache_creation_input_tokens)).sum,
    cache_read_input_tokens := ((data.filter (fun e => e.model = m)).map
      (fun e => e.cache_read_input_tokens)).sum,
    cost := ((data.filter (fun e => e.model = m)).map calculate_cost).sum }

/-- C2: `summarize` returns the request count, the four token-category sums,
the cost sum, and a per-model breakdown keyed exactly by the models occurring
in the input, each row holding that model's count/sums/cost; the empty input
yields the all-zero summary with an empty model map. -/
theorem C2_summarize (data : List UsageRecord) :
    (get_summary_stats data).total_requests = data.length
    ∧ (get_summary_stats data).total_input
        = (data.map (fun e => e.input_tokens)).sum
    ∧ (get_summary_stats data).total_output
        = (data.map (fun e => e.output_tokens)).sum
    ∧ (get_summary_stats data).total_cache_creation
        = (data.map (fun e => e.cache_creation_input_tokens)).sum
    ∧ (get_summary_stats data).total_cache_read
        = (data.map (fun e => e.cache_read_input_tokens)).sum
    ∧ (get_summary_stats data).total_cost = (data.map calculate_cost).sum
    ∧ (∀ m : String, alLookup m (get_summary_stats data).models =
        if (data.filter (fun e => e.model = m)).isEmpty then none
        else some (modelAgg m data))
    ∧ get_summary_stats [] = emptySummary := by
  refine ⟨summary_total_requests data, summary_total_input data,
    summary_total_output data, summary_total_cache_creation data,
    summary_total_cache_read data, summary_total_cost data, ?_, rfl⟩
  intro m
  rw [summary_models, alLookup_groupFold]
  by_cases h : (data.filter (fun e => e.model = m)).isEmpty = true
  · rw [if_pos h, if_pos h]
  · rw [if_neg h, if_neg h]
    congr 1
    rw [foldl_addEntry]
    simp [modelAgg, zeroModelStats]

/-- `summarize` on a one-element list, evaluated. -/
lemma summary_singleton (r : UsageRecord) :
    get_summary_stats [r] =
      { total_requests := 1, total_input := r.input_tokens,
        total_output := r.output_tokens,
        total_cache_creation := r.cache_creation_input_tokens,
        total_cache_read := r.cache_read_input_tokens,
        total_cost := calculate_cost r,
        models := [(r.model, addEntry zeroModelStats r)] } := by
  simp [get_summary_stats, groupFold, groupStep, alUpdate]

lemma sum_map_one (data : List UsageRecord) :
    (data.map (fun _ => (1 : Nat))).sum = data.length := by
  induction data with
  | nil => rfl
  | cons e rest ih => simp [ih, Nat.add_comm]

/-- C7: the totals of `summarize` over a list equal the sum of the totals of
`summarize` applied to each one-element sublist (additivity of the request
count, the four token totals and the total cost). -/
theorem C7_summarize_additive (data : List UsageRecord) :
    (get_summary_stats data).total_requests
      = (data.map (fun r => (get_summary_stats [r]).total_requests)).sum
    ∧ (get_summary_stats data).total_input
      = (data.map (fun r => (get_summary_stats [r]).total_input)).sum
    ∧ (get_summary_stats data).total_output
      = (data.map (fun r => (get_summary_stats [r]).total_output)).sum
    ∧ (get_summary_stats data).total_cache_creation
      = (data.map (fun r => (get_summary_stats [r]).total_cache_creation)).sum
    ∧ (get_summary_stats data).total_cache_read
      = (data.map (fun r => (get_summary_stats [r]).total_cache_read)).sum
    ∧ (get_summary_stats data).total_cost
      = (data.map (fun r => (get_summary_stats [r]).total_cost)).sum := by
  refine ⟨?_, ?_, ?_, ?_, ?_, ?_⟩
  · rw [summary_total_requests]
    simp only [summary_singleton]
    exact (sum_map_one data).symm
  · rw [summary_total_input]; simp only [summary_singleton]
  · rw [summary_total_output]; simp only [summary_singleton]
  · rw [summary_total_cache_creation]; simp only [summary_singleton]
  · rw [summary_total_cache_read]; simp only [summary_singleton]
  · rw [summary_total_cost]; simp only [summary_singleton]

/-- C10: the per-model breakdown of `summarize` is internally consistent with
its top-level totals: summing each per-model field over all model rows yields
the corresponding total. -/
theorem C10_breakdown_consistent (data : List UsageRecord) :
    ((get_summary_stats data).models.map (fun p => p.2.requests)).sum
      = (get_summary_stats data).total_requests
    ∧ ((get_summary_stats data).models.map (fun p => p.2.input_tokens)).sum
      = (get_summary_stats data).total_input
    ∧ ((get_summary_stats data).models.map (fun p => p.2.output_tokens)).sum
      = (get_summary_stats data).total_output
    ∧ ((get_summary_stats data).models.map
        (fun p => p.2.cache_creation_input_tokens)).sum
      = (get_summary_stats data).total_cache_creation
    ∧ ((get_summary_stats data).models.map
        (fun p => p.2.cache_read_input_tokens)).sum
      = (get_summary_stats data).total_cache_read
    ∧ ((get_summary_stats data).models.map (fun p => p.2.cost)).sum
      = (get_summary_stats data).total_cost := by
  refine ⟨?_, ?_, ?_, ?_, ?_, ?_⟩
  · rw [summary_models, summary_total_requests,
      sum_groupFold (fun e => e.model) (fun s => s.requests) (fun _ => 1)
        addEntry zeroModelStats rfl (fun s a => rfl)]
    exact sum_map_one data
  · rw [summary_models, summary_total_input,
      sum_groupFold (fun e => e.model) (fun s => s.input_tokens)
        (fun e => e.input_tokens) addEntry zeroModelStats rfl
        (fun s a => rfl)]
  · rw [summary_models, summary_total_output,
      sum_groupFold (fun e => e.model) (fun s => s.output_tokens)
        (fun e => e.output_tokens) addEntry zeroModelStats rfl
        (fun s a => rfl)]
  · rw [summary_models, summary_total_cache_creation,
      sum_groupFold (fun e => e.model) (fun s => s.cache_creation_input_tokens)
        (fun e => e.cache_creation_input_tokens) addEntry zeroModelStats rfl
        (fun s a => rfl)]
  · rw [summary_models, summary_total_cache_read,
      sum_groupFold (fun e => e.model) (fun s => s.cache_read_input_tokens)
        (fun e => e.cache_read_input_tokens) addEntry zeroModelStats rfl
        (fun s a => rfl)]
  · rw [summary_models, summary_total_cost,
      sum_groupFold (fun e => e.model) (fun s => s.cost) calculate_cost
        addEntry zeroModelStats rfl (fun s a => rfl)]

/-! ### `get_today_data` (token_data.py lines 172-175) and
`get_recent_activity` (lines 167-170) -/

/-- Python `s.startswith(pre)`. -/
def pyStartswith (s pre : String) : Bool :=
  pre.data.isPrefixOf s.data

/-- `TokenData.get_today_data` (token_data.py lines 172-175): keep the
records whose timestamp string starts with `today`, the caller's current
local date as an ISO date string (`date.today().isoformat()`). -/
def get_today_data (today : String) (data : List UsageRecord) :
    List UsageRecord :=
  data.filter (fun e => pyStartswith e.timestamp today)

/-- Descending timestamp order: `a` comes before `b` when
`b.timestamp ≤ a.timestamp` (string lexicographic order), mirroring
`sorted(key=timestamp, reverse=True)`. -/
def tsDesc (a b : UsageRecord) : Prop :=
  b.timestamp ≤ a.timestamp

instance : DecidableRel tsDesc := fun a b =>
  inferInstanceAs (Decidable (b.timestamp ≤ a.timestamp))

instance : IsTotal UsageRecord tsDesc :=
  ⟨fun a b => le_total b.timestamp a.timestamp⟩

instance : IsTrans UsageRecord tsDesc :=
  ⟨fun _ _ _ h1 h2 => le_trans h2 h1⟩

/-- `TokenData.get_recent_activity` (token_data.py lines 167-170): all
records sorted by timestamp descending (Python's stable sort, modelled by
the stable `insertionSort`), truncated to `limit`. -/
def get_recent_activity (data : List UsageRecord) (limit : Nat) :
    List UsageRecord :=
  (List.insertionSort tsDesc data).take limit

/-- C8: `todaySlice` returns exactly the records whose timestamp string
starts with the caller's current local date string: it is a sublist of the
collection, membership is equivalent to membership plus the date-prefix
test, multiplicities are preserved on matching records and zero otherwise,
and the empty collection yields the empty sequence. -/
theorem C8_today_slice (today : String) (data : List UsageRecord) :
    get_today_data today [] = []
    ∧ (get_today_data today data).Sublist data
    ∧ (∀ e : UsageRecord, e ∈ get_today_data today data ↔
        e ∈ data ∧ pyStartswith e.timestamp today = true)
    ∧ (∀ e : UsageRecord, (get_today_data today data).count e =
        if pyStartswith e.timestamp today then data.count e else 0) := by
  refine ⟨rfl, List.filter_sublist data, fun e => List.mem_filter, fun e => ?_⟩
  by_cases h : pyStartswith e.timestamp today = true
  · rw [if_pos h, get_today_data,
      @List.count_filter UsageRecord _ _
        (fun e => pyStartswith e.timestamp today) e data h]
  · rw [if_neg h, List.count_eq_zero]
    intro hmem
    exact h ((List.mem_filter.mp hmem).2)

/-- C9: `recentActivity(n)` returns at most `n` records, pairwise sorted by
descending timestamp (string lexicographic order), and the result is a
sub-multiset of the full collection. -/
theorem C9_recent_activity (data : List UsageRecord) (n : Nat) :
    (get_recent_activity data n).length ≤ n
    ∧ List.Pairwise tsDesc (get_recent_activity data n)
    ∧ (get_recent_activity data n).Subperm data := by
  refine ⟨List.length_take_le n _, ?_, ?_⟩
  · exact List.Pairwise.sublist (List.take_sublist n _)
      (List.sorted_insertionSort tsDesc data)
  · exact List.Subperm.trans
      ((List.take_sublist n _).subperm)
      (List.perm_insertionSort tsDesc data).subperm

/-! ### Local time and `get_hourly_usage` (token_data.py lines 177-201)

`get_local_datetime` (lines 110-119) parses an ISO timestamp and converts it
to the local timezone, returning `None` on any failure; it is abstracted as
`toLocal : String → Option ℚ`, the local naive time in minutes measured from
a local midnight.  `now : ℚ` is `datetime.now()` on the same scale. -/

/-- Hour-of-day of a local naive time in minutes: the hour number of the
`strftime('%H:00')` label (token_data.py line 188). -/
def hourOfDay (t : ℚ) : Int :=
  ⌊t / 60⌋ % 24

/-- One bucket of the hourly dict (token_data.py line 190). -/
structure HourStat where
  tokens : Int
  cost : ℚ
  requests : Nat
deriving DecidableEq, Repr

/-- The initial bucket value (token_data.py line 190). -/
def zeroHourStat : HourStat :=
  { tokens := 0, cost := 0, requests := 0 }

/-- One iteration of the hourly accumulation (token_data.py lines 192-197). -/
def addHour (s : HourStat) (e : UsageRecord) : HourStat :=
  { tokens := s.tokens + totalTokens e,
    cost := s.cost + calculate_cost e,
    requests := s.requests + 1 }

/-- The record-admission test of token_data.py line 187: the timestamp
parses and the local naive time is at least `now - hours` (in minutes,
`now - 60 * hours`). -/
def hourKeep (toLocal : String → Option ℚ) (now : ℚ) (hours : Int)
    (e : UsageRecord) : Bool :=
  match toLocal e.timestamp with
  | none => false
  | some t => decide (now - 60 * hours ≤ t)

/-- The bucket key of a record: the hour-of-day of its local time (`0` for
unparseable timestamps, which `hourKeep` already excludes). -/
def hourKey (toLocal : String → Option ℚ) (e : UsageRecord) : Int :=
  match toLocal e.timestamp with
  | none => 0
  | some t => hourOfDay t

/-- `TokenData.get_hourly_usage` (token_data.py lines 177-201): one pass over
the records; a record whose timestamp parses and lies in the trailing window
is added to the bucket of its local hour-of-day. -/
def get_hourly_usage (toLocal : String → Option ℚ) (now : ℚ)
    (data : List UsageRecord) (hours : Int) : List (Int × HourStat) :=
  data.foldl
    (fun hd e =>
      match toLocal e.timestamp with
      | none => hd
      | some t =>
          if now - 60 * hours ≤ t then
            alUpdate (hourOfDay t) (fun s => addHour s e) zeroHourStat hd
          else hd)
    []

lemma hourly_foldl_aux (toLocal : String → Option ℚ) (now : ℚ) (hours : Int)
    (data : List UsageRecord) :
    ∀ acc : List (Int × HourStat),
      data.foldl
        (fun hd e =>
          match toLocal e.timestamp with
          | none => hd
          | some t =>
              if now - 60 * hours ≤ t then
                alUpdate (hourOfDay t) (fun s => addHour s e) zeroHourStat hd
              else hd)
        acc
      = (data.filter (hourKeep toLocal now hours)).foldl
          (groupStep (hourKey toLocal) addHour zeroHourStat) acc := by
  induction data with
  | nil => intro acc; rfl
  | cons e rest ih =>
      intro acc
      rcases h : toLocal e.timestamp with _ | t
      · have hk : hourKeep toLocal now hours e = false := by
          simp [hourKeep, h]
        simp only [List.foldl_cons, List.filter_cons, hk, h]
        simp only [Bool.false_eq_true, if_false]
        exact ih acc
      · by_cases hw : now - 60 * hours ≤ t
        · have hk : hourKeep toLocal now hours e = true := by
            simp [hourKeep, h, hw]
          have hkey : hourKey toLocal e = hourOfDay t := by
            simp [hourKey, h]
          simp only [List.foldl_cons, List.filter_cons, hk, h, if_true]
          rw [if_pos hw]
          simp only [List.foldl_cons, groupStep, hkey]
          exact ih _
        · have hk : hourKeep toLocal now hours e = false := by
            simp [hourKeep, h, hw]
          simp only [List.foldl_cons, List.filter_cons, hk, h]
          rw [if_neg hw]
          simp only [Bool.false_eq_true, if_false]
          exact ih acc

/-- `get_hourly_usage` is the grouping fold, by local hour-of-day, over the
records that pass the window-and-parse test. -/
lemma get_hourly_usage_eq (toLocal : String → Option ℚ) (now : ℚ)
    (data : List UsageRecord) (hours : Int) :
    get_hourly_usage toLocal now data hours
      = groupFold (hourKey toLocal) addHour zeroHourStat
          (data.filter (hourKeep toLocal now hours)) := by
  rw [get_hourly_usage, groupFold]
  exact hourly_foldl_aux toLocal now hours data []

lemma alLookup_eq_none_iff {κ σ : Type} [DecidableEq κ] (q : κ)
    (ms : List (κ × σ)) :
    alLookup q ms = none ↔ q ∉ ms.map Prod.fst := by
  induction ms with
  | nil => simp [alLookup]
  | cons p rest ih =>
      obtain ⟨k, s⟩ := p
      by_cases h : k = q
      · simp [alLookup, h, ih]
      · simp only [alLookup, if_neg h, ih, List.map_cons, List.mem_cons]
        constructor
        · intro hq hor
          rcases hor with h1 | h2
          · exact h h1.symm
          · exact hq h2
        · intro hq hmem
          exact hq (Or.inr hmem)

lemma groupFold_keys_nodup {κ σ α : Type} [DecidableEq κ] (key : α → κ)
    (step : σ → α → σ) (z : σ) (l : List α) :
    ((groupFold key step z l).map Prod.fst).Nodup := by
  suffices h : ∀ acc : List (κ × σ), (acc.map Prod.fst).Nodup →
      ((l.foldl (groupStep key step z) acc).map Prod.fst).Nodup from
    h [] (by simp)
  induction l with
  | nil => intro acc h; exact h
  | cons a rest ih =>
      intro acc hacc
      simp only [List.foldl_cons]
      apply ih
      rw [groupStep, alUpdate_keys]
      by_cases hs : (alLookup (key a) acc).isSome = true
      · rw [if_pos hs]; exact hacc
      · rw [if_neg hs]
        have hfresh : key a ∉ acc.map Prod.fst := by
          rw [← alLookup_eq_none_iff]
          rcases h2 : alLookup (key a) acc with _ | v
          · rfl
          · rw [h2] at hs; simp at hs
        simp [List.nodup_append, hacc, hfresh]

lemma groupFold_keys_mem {κ σ α : Type} [DecidableEq κ] (key : α → κ)
    (step : σ → α → σ) (z : σ) (l : List α) (q : κ)
    (hq : q ∈ (groupFold key step z l).map Prod.fst) :
    ∃ a ∈ l, key a = q := by
  have hne : alLookup q (groupFold key step z l) ≠ none := by
    rw [Ne, alLookup_eq_none_iff]
    exact fun h => h hq
  rw [alLookup_groupFold] at hne
  rcases hf : l.filter (fun a => key a = q) with _ | ⟨a, rest⟩
  · rw [hf] at hne; simp at hne
  · have ha : a ∈ l.filter (fun a => key a = q) := by
      rw [hf]; exact List.mem_cons_self a rest
    have := List.mem_filter.mp ha
    exact ⟨a, this.1, by simpa using this.2⟩

lemma hourKey_range (toLocal : String → Option ℚ) (e : UsageRecord) :
    0 ≤ hourKey toLocal e ∧ hourKey toLocal e < 24 := by
  rcases h : toLocal e.timestamp with _ | t
  · simp [hourKey, h]
  · simp only [hourKey, h, hourOfDay]
    exact ⟨Int.emod_nonneg _ (by norm_num), Int.emod_lt_of_pos _ (by norm_num)⟩

lemma length_le_of_nodup_hours (l : List Int) (hn : l.Nodup)
    (h : ∀ k ∈ l, 0 ≤ k ∧ k < 24) : l.length ≤ 24 := by
  have hsub : l.toFinset ⊆ Finset.Ico (0 : Int) 24 := by
    intro k hk
    rw [List.mem_toFinset] at hk
    rcases h k hk with ⟨h1, h2⟩
    simp [Finset.mem_Ico, h1, h2]
  have hcard := Finset.card_le_card hsub
  rw [List.toFinset_card_of_nodup hn] at hcard
  simpa [Int.card_Ico] using hcard

/-- The records a correct hourly bucket `k` must aggregate: those passing the
window-and-parse test whose local hour-of-day is `k`. -/
def hourBucketRecords (toLocal : String → Option ℚ) (now : ℚ) (hours : Int)
    (k : Int) (data : List UsageRecord) : List UsageRecord :=
  (data.filter (hourKeep toLocal now hours)).filter
    (fun e => hourKey toLocal e = k)

/-- The aggregate a correct hourly bucket `k` must equal. -/
def hourAgg (toLocal : String → Option ℚ) (now : ℚ) (hours : Int) (k : Int)
    (data : List UsageRecord) : HourStat :=
  { tokens := ((hourBucketRecords toLocal now hours k data).map
      totalTokens).sum,
    cost := ((hourBucketRecords toLocal now hours k data).map
      calculate_cost).sum,
    requests := (hourBucketRecords toLocal now hours k data).length }

/-- Folding `addHour` over a record list adds the token sum, cost sum and
count to the starting bucket. -/
lemma foldl_addHour (l : List UsageRecord) (s : HourStat) :
    l.foldl addHour s =
      { tokens := s.tokens + (l.map totalTokens).sum,
        cost := s.cost + (l.map calculate_cost).sum,
        requests := s.requests + l.length } := by
  induction l generalizing s with
  | nil => simp
  | cons e rest ih =>
      simp only [List.foldl_cons, ih, addHour, List.map_cons, List.sum_cons,
        List.length_cons, HourStat.mk.injEq]
      refine ⟨?_, ?_, ?_⟩ <;> ring

/-- C6: `hourlyBuckets(h)` ignores records that fail the window test —
unparseable timestamps and local times earlier than `now - h` — (prepending
such a record changes nothing); buckets are keyed by local hour-of-day, the
keys are distinct, at most 24, and shifting a time by a whole day (1440
minutes) keeps the same key; each bucket holds the token sum, cost sum and
request count of exactly the admitted records with that hour-of-day. -/
theorem C6_hourly_buckets (toLocal : String → Option ℚ) (now : ℚ)
    (data : List UsageRecord) (hours : Int) :
    (∀ e, hourKeep toLocal now hours e = false →
        get_hourly_usage toLocal now (e :: data) hours
          = get_hourly_usage toLocal now data hours)
    ∧ (∀ e t, toLocal e.timestamp = some t → t < now - 60 * hours →
        hourKeep toLocal now hours e = false)
    ∧ (∀ e, toLocal e.timestamp = none →
        hourKeep toLocal now hours e = false)
    ∧ ((get_hourly_usage toLocal now data hours).map Prod.fst).Nodup
    ∧ (get_hourly_usage toLocal now data hours).length ≤ 24
    ∧ (∀ t : ℚ, hourOfDay (t + 1440) = hourOfDay t)
    ∧ (∀ k, alLookup k (get_hourly_usage toLocal now data hours) =
        if (hourBucketRecords toLocal now hours k data).isEmpty then none
        else some (hourAgg toLocal now hours k data)) := by
  refine ⟨?_, ?_, ?_, ?_, ?_, ?_, ?_⟩
  · intro e hk
    rw [get_hourly_usage_eq, get_hourly_usage_eq, List.filter_cons, hk]
    simp only [Bool.false_eq_true, if_false]
  · intro e t ht hlt
    simp [hourKeep, ht, not_le.mpr hlt]
  · intro e he
    simp [hourKeep, he]
  · rw [get_hourly_usage_eq]
    exact groupFold_keys_nodup _ _ _ _
  · rw [get_hourly_usage_eq]
    have hlen : (groupFold (hourKey toLocal) addHour zeroHourStat
        (data.filter (hourKeep toLocal now hours))).length
        = ((groupFold (hourKey toLocal) addHour zeroHourStat
            (data.filter (hourKeep toLocal now hours))).map Prod.fst).length :=
      (List.length_map _ _).symm
    rw [hlen]
    refine length_le_of_nodup_hours _ (groupFold_keys_nodup _ _ _ _) ?_
    intro k hk
    rcases groupFold_keys_mem _ _ _ _ _ hk with ⟨a, _, hka⟩
    rw [← hka]
    exact hourKey_range toLocal a
  · intro t
    have hfl : ⌊(t + 1440) / 60⌋ = ⌊t / 60⌋ + 24 := by
      have : (t + 1440) / 60 = t / 60 + (24 : Int) := by push_cast; ring
      rw [this, Int.floor_add_int]
    unfold hourOfDay
    rw [hfl]
    omega
  · intro k
    rw [get_hourly_usage_eq, alLookup_groupFold]
    by_cases h : ((data.filter (hourKeep toLocal now hours)).filter
        (fun e => hourKey toLocal e = k)).isEmpty = true
    · rw [if_pos h, if_pos]
      exact h
    · rw [if_neg h, if_neg]
      swap
      · exact h
      · congr 1
        rw [foldl_addHour]
        simp [hourAgg, hourBucketRecords, zeroHourStat]

/-! ### `get_recent_trend` (token_data.py lines 203-229) -/

/-- Membership of a record in one trend bucket `[lo, lo + 10)` (the 10-minute
buckets of token_data.py lines 210-212 and the test of line 220): the
timestamp parses and the local time lies in the interval. -/
def trendPred (toLocal : String → Option ℚ) (lo : ℚ) (e : UsageRecord) :
    Bool :=
  match toLocal e.timestamp with
  | none => false
  | some t => decide (lo ≤ t ∧ t < lo + 10)

/-- `TokenData.get_recent_trend` (token_data.py lines 203-229): six buckets,
each 10 minutes wide, the `i`-th starting at `cutoff + 10·i` with
`cutoff = now - minutes`; each bucket sums the total tokens of the records
whose parseable local time falls inside it. -/
def get_recent_trend (toLocal : String → Option ℚ) (now : ℚ)
    (data : List UsageRecord) (minutes : Int) : List Int :=
  (List.range 6).map (fun i : Nat =>
    data.foldl
      (fun acc e =>
        match toLocal e.timestamp with
        | none => acc
        | some t =>
            if now - minutes + 10 * (i : ℚ) ≤ t
              ∧ t < now - minutes + 10 * (i : ℚ) + 10
            then acc + totalTokens e
            else acc)
      0)

/-- Membership of a record in the spec's trailing window `[now - minutes,
now)`. -/
def windowPred (toLocal : String → Option ℚ) (now minutes : ℚ)
    (e : UsageRecord) : Bool :=
  match toLocal e.timestamp with
  | none => false
  | some t => decide (now - minutes ≤ t ∧ t < now)

/-- Modelled from the spec (§8, `recentTrend(60)`): the total token count of
all records whose parseable local timestamp falls within
`[now - minutes, now)`.  This is the spec-side quantity the bucket sums are
compared against. -/
def specWindowTokens (toLocal : String → Option ℚ) (now minutes : ℚ)
    (data : List UsageRecord) : Int :=
  ((data.filter (windowPred toLocal now minutes)).map totalTokens).sum

/-- The value a correct `i`-th trend bucket holds: the token sum over the
records in `[now - minutes + 10·i, now - minutes + 10·i + 10)`. -/
def trendBucketSum (toLocal : String → Option ℚ) (now : ℚ) (minutes : Int)
    (data : List UsageRecord) (i : Nat) : Int :=
  ((data.filter (trendPred toLocal (now - minutes + 10 * i))).map
    totalTokens).sum

lemma trend_bucket (toLocal : String → Option ℚ) (now : ℚ) (minutes : Int)
    (data : List UsageRecord) (i : Nat) :
    ∀ init : Int,
      data.foldl
        (fun acc e =>
          match toLocal e.timestamp with
          | none => acc
          | some t =>
              if now - minutes + 10 * i ≤ t ∧ t < now - minutes + 10 * i + 10
              then acc + totalTokens e
              else acc)
        init
      = init + trendBucketSum toLocal now minutes data i := by
  induction data with
  | nil => intro init; simp [trendBucketSum]
  | cons e rest ih =>
      intro init
      rcases h : toLocal e.timestamp with _ | t
      · have hp : trendPred toLocal (now - minutes + 10 * i) e = false := by
          simp [trendPred, h]
        simp only [trendBucketSum, List.foldl_cons, h, List.filter_cons, hp,
          Bool.false_eq_true, if_false]
        exact ih init
      · by_cases hc : now - minutes + 10 * i ≤ t
          ∧ t < now - minutes + 10 * i + 10
        · have hp : trendPred toLocal (now - minutes + 10 * i) e = true := by
            simp only [trendPred, h]
            exact decide_eq_true hc
          simp only [trendBucketSum, List.foldl_cons, h, if_pos hc,
            List.filter_cons, hp, if_true, List.map_cons, List.sum_cons]
          rw [ih]
          simp only [trendBucketSum]
          ring
        · have hp : trendPred toLocal (now - minutes + 10 * i) e = false := by
            simp only [trendPred, h]
            exact decide_eq_false hc
          simp only [trendBucketSum, List.foldl_cons, h, if_neg hc,
            List.filter_cons, hp, Bool.false_eq_true, if_false]
          exact ih init

/-- `get_recent_trend` evaluated: the six bucket sums in chronological
order. -/
lemma trend_buckets_eq (toLocal : String → Option ℚ) (now : ℚ)
    (data : List UsageRecord) (minutes : Int) :
    get_recent_trend toLocal now data minutes =
      [trendBucketSum toLocal now minutes data 0,
       trendBucketSum toLocal now minutes data 1,
       trendBucketSum toLocal now minutes data 2,
       trendBucketSum toLocal now minutes data 3,
       trendBucketSum toLocal now minutes data 4,
       trendBucketSum toLocal now minutes data 5] := by
  have h6 : List.range 6 = [0, 1, 2, 3, 4, 5] := rfl
  rw [get_recent_trend, h6]
  simp only [List.map_cons, List.map_nil]
  rw [trend_bucket toLocal now minutes data 0 0,
    trend_bucket toLocal now minutes data 1 0,
    trend_bucket toLocal now minutes data 2 0,
    trend_bucket toLocal now minutes data 3 0,
    trend_bucket toLocal now minutes data 4 0,
    trend_bucket toLocal now minutes data 5 0]
  simp only [zero_add]

lemma fms_cons (p : UsageRecord → Bool) (e : UsageRecord)
    (l : List UsageRecord) :
    (((e :: l).filter p).map totalTokens).sum
      = (if p e = true then totalTokens e else 0)
        + ((l.filter p).map totalTokens).sum := by
  by_cases h : p e = true <;> simp [List.filter_cons, h]

/-- For `minutes = 60` the six 10-minute buckets tile the trailing hour: a
record contributes its tokens to exactly one bucket iff its local time lies
in `[now - 60, now)`. -/
lemma trend_pointwise (toLocal : String → Option ℚ) (now : ℚ)
    (e : UsageRecord) :
    (if trendPred toLocal (now - 60) e = true then totalTokens e else 0)
      + (if trendPred toLocal (now - 50) e = true then totalTokens e else 0)
      + (if trendPred toLocal (now - 40) e = true then totalTokens e else 0)
      + (if trendPred toLocal (now - 30) e = true then totalTokens e else 0)
      + (if trendPred toLocal (now - 20) e = true then totalTokens e else 0)
      + (if trendPred toLocal (now - 10) e = true then totalTokens e else 0)
      = if windowPred toLocal now 60 e = true then totalTokens e else 0 := by
  rcases h : toLocal e.timestamp with _ | t
  · simp [trendPred, windowPred, h]
  · simp only [trendPred, windowPred, h, decide_eq_true_eq]
    by_cases h0 : t < now - 60
    · have b0 : ¬(now - 60 ≤ t ∧ t < now - 60 + 10) := fun hc => by
        linarith [hc.1]
      have b1 : ¬(now - 50 ≤ t ∧ t < now - 50 + 10) := fun hc => by
        linarith [hc.1]
      have b2 : ¬(now - 40 ≤ t ∧ t < now - 40 + 10) := fun hc => by
        linarith [hc.1]
      have b3 : ¬(now - 30 ≤ t ∧ t < now - 30 + 10) := fun hc => by
        linarith [hc.1]
      have b4 : ¬(now - 20 ≤ t ∧ t < now - 20 + 10) := fun hc => by
        linarith [hc.1]
      have b5 : ¬(now - 10 ≤ t ∧ t < now - 10 + 10) := fun hc => by
        linarith [hc.1]
      have w : ¬(now - 60 ≤ t ∧ t < now) := fun hc => by linarith [hc.1]
      rw [if_neg b0, if_neg b1, if_neg b2, if_neg b3, if_neg b4, if_neg b5,
        if_neg w]
      ring
    · have hge : now - 60 ≤ t := not_lt.mp h0
      by_cases h1 : t < now - 50
      · have b0 : now - 60 ≤ t ∧ t < now - 60 + 10 := ⟨hge, by linarith⟩
        have b1 : ¬(now - 50 ≤ t ∧ t < now - 50 + 10) := fun hc => by
          linarith [hc.1]
        have b2 : ¬(now - 40 ≤ t ∧ t < now - 40 + 10) := fun hc => by
          linarith [hc.1]
        have b3 : ¬(now - 30 ≤ t ∧ t < now - 30 + 10) := fun hc => by
          linarith [hc.1]
        have b4 : ¬(now - 20 ≤ t ∧ t < now - 20 + 10) := fun hc => by
          linarith [hc.1]
        have b5 : ¬(now - 10 ≤ t ∧ t < now - 10 + 10) := fun hc => by
          linarith [hc.1]
        have w : now - 60 ≤ t ∧ t < now := ⟨hge, by linarith⟩
        rw [if_pos b0, if_neg b1, if_neg b2, if_neg b3, if_neg b4, if_neg b5,
          if_pos w]
        ring
      · have hge1 : now - 50 ≤ t := not_lt.mp h1
        by_cases h2 : t < now - 40
        · have b0 : ¬(now - 60 ≤ t ∧ t < now - 60 + 10) := fun hc => by
            linarith [hc.2]
          have b1 : now - 50 ≤ t ∧ t < now - 50 + 10 := ⟨hge1, by linarith⟩
          have b2 : ¬(now - 40 ≤ t ∧ t < now - 40 + 10) := fun hc => by
            linarith [hc.1]
          have b3 : ¬(now - 30 ≤ t ∧ t < now - 30 + 10) := fun hc => by
            linarith [hc.1]
          have b4 : ¬(now - 20 ≤ t ∧ t < now - 20 + 10) := fun hc => by
            linarith [hc.1]
          have b5 : ¬(now - 10 ≤ t ∧ t < now - 10 + 10) := fun hc => by
            linarith [hc.1]
          have w : now - 60 ≤ t ∧ t < now := ⟨hge, by linarith⟩
          rw [if_neg b0, if_pos b1, if_neg b2, if_neg b3, if_neg b4,
            if_neg b5, if_pos w]
          ring
        · have hge2 : now - 40 ≤ t := not_lt.mp h2
          by_cases h3 : t < now - 30
          · have b0 : ¬(now - 60 ≤ t ∧ t < now - 60 + 10) := fun hc => by
              linarith [hc.2]
            have b1 : ¬(now - 50 ≤ t ∧ t < now - 50 + 10) := fun hc => by
              linarith [hc.2]
            have b2 : now - 40 ≤ t ∧ t < now - 40 + 10 := ⟨hge2, by linarith⟩
            have b3 : ¬(now - 30 ≤ t ∧ t < now - 30 + 10) := fun hc => by
              linarith [hc.1]
            have b4 : ¬(now - 20 ≤ t ∧ t < now - 20 + 10) := fun hc => by
              linarith [hc.1]
            have b5 : ¬(now - 10 ≤ t ∧ t < now - 10 + 10) := fun hc => by
              linarith [hc.1]
            have w : now - 60 ≤ t ∧ t < now := ⟨hge, by linarith⟩
            rw [if_neg b0, if_neg b1, if_pos b2, if_neg b3, if_neg b4,
              if_neg b5, if_pos w]
            ring
          · have hge3 : now - 30 ≤ t := not_lt.mp h3
            by_cases h4 : t < now - 20
            · have b0 : ¬(now - 60 ≤ t ∧ t < now - 60 + 10) := fun hc => by
                linarith [hc.2]
              have b1 : ¬(now - 50 ≤ t ∧ t < now - 50 + 10) := fun hc => by
                linarith [hc.2]
              have b2 : ¬(now - 40 ≤ t ∧ t < now - 40 + 10) := fun hc => by
                linarith [hc.2]
              have b3 : now - 30 ≤ t ∧ t < now - 30 + 10 :=
                ⟨hge3, by linarith⟩
              have b4 : ¬(now - 20 ≤ t ∧ t < now - 20 + 10) := fun hc => by
                linarith [hc.1]
              have b5 : ¬(now - 10 ≤ t ∧ t < now - 10 + 10) := fun hc => by
                linarith [hc.1]
              have w : now - 60 ≤ t ∧ t < now := ⟨hge, by linarith⟩
              rw [if_neg b0, if_neg b1, if_neg b2, if_pos b3, if_neg b4,
                if_neg b5, if_pos w]
              ring
            · have hge4 : now - 20 ≤ t := not_lt.mp h4
              by_cases h5 : t < now - 10
              · have b0 : ¬(now - 60 ≤ t ∧ t < now - 60 + 10) :=
                  fun hc => by linarith [hc.2]
                have b1 : ¬(now - 50 ≤ t ∧ t < now - 50 + 10) :=
                  fun hc => by linarith [hc.2]
                have b2 : ¬(now - 40 ≤ t ∧ t < now - 40 + 10) :=
                  fun hc => by linarith [hc.2]
                have b3 : ¬(now - 30 ≤ t ∧ t < now - 30 + 10) :=
                  fun hc => by linarith [hc.2]
                have b4 : now - 20 ≤ t ∧ t < now - 20 + 10 :=
                  ⟨hge4, by linarith⟩
                have b5 : ¬(now - 10 ≤ t ∧ t < now - 10 + 10) :=
                  fun hc => by linarith [hc.1]
                have w : now - 60 ≤ t ∧ t < now := ⟨hge, by linarith⟩
                rw [if_neg b0, if_neg b1, if_neg b2, if_neg b3, if_pos b4,
                  if_neg b5, if_pos w]
                ring
              · have hge5 : now - 10 ≤ t := not_lt.mp h5
                by_cases h6 : t < now
                · have b0 : ¬(now - 60 ≤ t ∧ t < now - 60 + 10) :=
                    fun hc => by linarith [hc.2]
                  have b1 : ¬(now - 50 ≤ t ∧ t < now - 50 + 10) :=
                    fun hc => by linarith [hc.2]
                  have b2 : ¬(now - 40 ≤ t ∧ t < now - 40 + 10) :=
                    fun hc => by linarith [hc.2]
                  have b3 : ¬(now - 30 ≤ t ∧ t < now - 30 + 10) :=
                    fun hc => by linarith [hc.2]
                  have b4 : ¬(now - 20 ≤ t ∧ t < now - 20 + 10) :=
                    fun hc => by linarith [hc.2]
                  have b5 : now - 10 ≤ t ∧ t < now - 10 + 10 :=
                    ⟨hge5, by linarith⟩
                  have w : now - 60 ≤ t ∧ t < now := ⟨hge, by linarith⟩
                  rw [if_neg b0, if_neg b1, if_neg b2, if_neg b3, if_neg b4,
                    if_pos b5, if_pos w]
                  ring
                · have hge6 : now ≤ t := not_lt.mp h6
                  have b0 : ¬(now - 60 ≤ t ∧ t < now - 60 + 10) :=
                    fun hc => by linarith [hc.2]
                  have b1 : ¬(now - 50 ≤ t ∧ t < now - 50 + 10) :=
                    fun hc => by linarith [hc.2]
                  have b2 : ¬(now - 40 ≤ t ∧ t < now - 40 + 10) :=
                    fun hc => by linarith [hc.2]
                  have b3 : ¬(now - 30 ≤ t ∧ t < now - 30 + 10) :=
                    fun hc => by linarith [hc.2]
                  have b4 : ¬(now - 20 ≤ t ∧ t < now - 20 + 10) :=
                    fun hc => by linarith [hc.2]
                  have b5 : ¬(now - 10 ≤ t ∧ t < now - 10 + 10) :=
                    fun hc => by linarith [hc.2]
                  have w : ¬(now - 60 ≤ t ∧ t < now) := fun hc => by
                    linarith [hc.2]
                  rw [if_neg b0, if_neg b1, if_neg b2, if_neg b3, if_neg b4,
                    if_neg b5, if_neg w]
                  ring

/-- Summed over the whole collection: for `minutes = 60` the six bucket sums
add up to the window total. -/
lemma six_bucket_window (toLocal : String → Option ℚ) (now : ℚ)
    (data : List UsageRecord) :
    ((data.filter (trendPred toLocal (now - 60))).map totalTokens).sum
      + ((data.filter (trendPred toLocal (now - 50))).map totalTokens).sum
      + ((data.filter (trendPred toLocal (now - 40))).map totalTokens).sum
      + ((data.filter (trendPred toLocal (now - 30))).map totalTokens).sum
      + ((data.filter (trendPred toLocal (now - 20))).map totalTokens).sum
      + ((data.filter (trendPred toLocal (now - 10))).map totalTokens).sum
      = specWindowTokens toLocal now 60 data := by
  induction data with
  | nil => simp [specWindowTokens]
  | cons e rest ih =>
      simp only [specWindowTokens] at ih ⊢
      rw [fms_cons (trendPred toLocal (now - 60)) e rest,
        fms_cons (trendPred toLocal (now - 50)) e rest,
        fms_cons (trendPred toLocal (now - 40)) e rest,
        fms_cons (trendPred toLocal (now - 30)) e rest,
        fms_cons (trendPred toLocal (now - 20)) e rest,
        fms_cons (trendPred toLocal (now - 10)) e rest,
        fms_cons (windowPred toLocal now 60) e rest]
      have hp := trend_pointwise toLocal now e
      linarith [ih, hp]

/-- C5 (amended): `recentTrend(windowMinutes)` returns exactly 6 integers;
the `i`-th is the token sum of the records whose parseable local timestamp
falls in the fixed-width 10-minute interval
`[now - windowMinutes + 10·i, now - windowMinutes + 10·i + 10)` (anchored at
`now - windowMinutes`, in chronological order) — not in a
`windowMinutes/6`-wide interval; in the `windowMinutes = 60` case, where the
six buckets tile the trailing window, the bucket sums add up to the total
tokens of all records with local timestamp in `[now - 60, now)`, records
outside the window or with unparseable timestamps contributing 0. -/
theorem C5_recent_trend (toLocal : String → Option ℚ) (now : ℚ)
    (data : List UsageRecord) (minutes : Int) :
    (get_recent_trend toLocal now data minutes).length = 6
    ∧ get_recent_trend toLocal now data minutes =
        [trendBucketSum toLocal now minutes data 0,
         trendBucketSum toLocal now minutes data 1,
         trendBucketSum toLocal now minutes data 2,
         trendBucketSum toLocal now minutes data 3,
         trendBucketSum toLocal now minutes data 4,
         trendBucketSum toLocal now minutes data 5]
    ∧ (get_recent_trend toLocal now data 60).sum
        = specWindowTokens toLocal now 60 data := by
  refine ⟨?_, trend_buckets_eq toLocal now data minutes, ?_⟩
  · rw [trend_buckets_eq]; rfl
  · rw [trend_buckets_eq]
    simp only [List.sum_cons, List.sum_nil, add_zero]
    have e0 : now - ((60 : Int) : ℚ) + 10 * ((0 : Nat) : ℚ) = now - 60 := by
      push_cast; ring
    have e1 : now - ((60 : Int) : ℚ) + 10 * ((1 : Nat) : ℚ) = now - 50 := by
      push_cast; ring
    have e2 : now - ((60 : Int) : ℚ) + 10 * ((2 : Nat) : ℚ) = now - 40 := by
      push_cast; ring
    have e3 : now - ((60 : Int) : ℚ) + 10 * ((3 : Nat) : ℚ) = now - 30 := by
      push_cast; ring
    have e4 : now - ((60 : Int) : ℚ) + 10 * ((4 : Nat) : ℚ) = now - 20 := by
      push_cast; ring
    have e5 : now - ((60 : Int) : ℚ) + 10 * ((5 : Nat) : ℚ) = now - 10 := by
      push_cast; ring
    simp only [trendBucketSum, e0, e1, e2, e3, e4, e5]
    have h := six_bucket_window toLocal now data
    linarith [h]

/-- A concrete timestamp-parse function for the counterexample: one
timestamp string `"r990"` parsing to local minute 990, everything else
unparseable. -/
def c5tl : String → Option ℚ :=
  fun s => if s = "r990" then some (990 : ℚ) else none

/-- C5 counterexample: with `now = 1000` and `windowMinutes = 120`, a record
at local minute 990 — inside the trailing window `[880, 1000)`, so the claim
says the 6 buckets sum to its 5 tokens — is counted in no bucket: the code's
buckets are 10 minutes wide (not `120/6 = 20`), covering only
`[880, 940)`, and the bucket sums add up to 0, not 5. -/
theorem C5_trend_counterexample :
    (get_recent_trend c5tl 1000 [mkRecord "m" "r990" 5 0 0 0] 120).sum = 0
    ∧ specWindowTokens c5tl 1000 120 [mkRecord "m" "r990" 5 0 0 0] = 5
    ∧ c5tl "r990" = some 990 ∧ ((1000 : ℚ) - 120 ≤ 990 ∧ (990 : ℚ) < 1000) := by
  have htl : c5tl "r990" = some 990 := by
    simp [c5tl]
  refine ⟨?_, ?_, htl, by norm_num⟩
  · rw [trend_buckets_eq]
    have hb : ∀ q : ℚ, 880 ≤ q → q ≤ 930 →
        trendPred c5tl q (mkRecord "m" "r990" 5 0 0 0) = false := by
      intro q h1 h2
      simp only [trendPred, mkRecord, htl]
      apply decide_eq_false
      rintro ⟨ha, hbnd⟩
      linarith
    simp only [trendBucketSum, List.sum_cons, List.sum_nil, add_zero]
    rw [List.filter_cons, List.filter_cons, List.filter_cons,
      List.filter_cons, List.filter_cons, List.filter_cons]
    rw [hb _ (by norm_num) (by norm_num), hb _ (by norm_num) (by norm_num),
      hb _ (by norm_num) (by norm_num), hb _ (by norm_num) (by norm_num),
      hb _ (by norm_num) (by norm_num), hb _ (by norm_num) (by norm_num)]
    simp
  · simp only [specWindowTokens, windowPred, List.filter_cons, mkRecord, htl]
    norm_num [totalTokens, mkRecord]

/-! ### `parse_jsonl_file` (token_data.py lines 47-83) and `load_data`
(lines 85-96)

A JSONL line is `Option Json`: `none` when `json.loads` raises
`JSONDecodeError` (caught at lines 77-78), `some j` when it decodes to the
JSON value `j`.  A file is `Option (List (Option Json))`: `none` when
opening it raises (absorbed by the outer handler at lines 80-81).  Object
keys are assumed distinct, as `json.loads` produces.  The loop body can
raise exceptions other than `JSONDecodeError` (`AttributeError` from `.get`
on a non-object, `TypeError` from `in`/indexing on unsuitable values); these
escape the inner handler, hit the outer `except Exception: pass`, and end
the processing of the file with the records accumulated so far. -/

/-- A JSON value.  Numbers are modelled as integers: the only numeric fields
read are token counts, integers by the data model. -/
inductive Json where
  | null : Json
  | bool (b : Bool) : Json
  | num (n : Int) : Json
  | str (s : String) : Json
  | arr (elems : List Json) : Json
  | obj (fields : List (String × Json)) : Json

/-- Key lookup in a JSON object (`d[k]` / `d.get(k)` on a dict). -/
def jGet (fields : List (String × Json)) (k : String) : Option Json :=
  match fields with
  | [] => none
  | (k', v) :: rest => if k' = k then some v else jGet rest k

/-- Python `needle in hay` on strings: substring containment. -/
def pyStrContains (hay needle : String) : Bool :=
  decide (List.IsInfix needle.data hay.data)

/-- Python `x == needle` for each element of a list, as `needle in list`
uses it: true only for an equal string element. -/
def jsonHasStr (k : String) : List Json → Bool
  | [] => false
  | .str s :: rest => s = k || jsonHasStr k rest
  | _ :: rest => jsonHasStr k rest

/-- Python `k in j`: key containment for objects, substring containment for
strings, element membership for arrays; `TypeError` (modelled as `.error`)
for null, booleans and numbers. -/
def pyIn (k : String) : Json → Except Unit Bool
  | .obj fields => .ok (jGet fields k).isSome
  | .str s => .ok (pyStrContains s k)
  | .arr elems => .ok (jsonHasStr k elems)
  | _ => .error ()

/-- Python `j[k]` with a string key: object lookup (`KeyError` when absent),
`TypeError` for every other shape — both modelled as `.error`. -/
def pyGetItem (j : Json) (k : String) : Except Unit Json :=
  match j with
  | .obj fields =>
      match jGet fields k with
      | some v => .ok v
      | none => .error ()
  | _ => .error ()

/-- `usage.get(k, 0)` followed by use as a token count: the numeric value
when present, else the default 0.  (A non-numeric value under a token key is
outside the data model, which requires non-negative integers.) -/
def jGetInt (fields : List (String × Json)) (k : String) : Int :=
  match jGet fields k with
  | some (.num n) => n
  | _ => 0

/-- `d.get(k, default)` used as a string field.  (A non-string value under
these keys is outside the data model.) -/
def jGetStr (fields : List (String × Json)) (k : String) (d : String) :
    String :=
  match jGet fields k with
  | some (.str s) => s
  | _ => d

/-- `data.get('type') == 'assistant'` (token_data.py line 58): true exactly
for an object whose `type` key holds the string `"assistant"`. -/
def isAssistant (fields : List (String × Json)) : Bool :=
  match jGet fields "type" with
  | some (.str s) => s = "assistant"
  | _ => false

/-- The loop body of `parse_jsonl_file` for a decoded line (token_data.py
lines 57-75): `.ok (some r)` appends the record `r`, `.ok none` skips the
line (shape test false), `.error ()` is an exception escaping to the outer
handler (`.get` on a non-object line, `in` on a non-container `message`,
indexing a string/array `message`, `.get` on a non-object `usage`). -/
def lineStep (projectDir : String) (j : Json) :
    Except Unit (Option UsageRecord) :=
  match j with
  | .obj fields =>
      if isAssistant fields then
        match jGet fields "message" with
        | none => .ok none
        | some msg =>
            match pyIn "usage" msg with
            | .error _ => .error ()
            | .ok false => .ok none
            | .ok true =>
                match pyGetItem msg "usage" with
                | .error _ => .error ()
                | .ok usage =>
                    match msg, usage with
                    | .obj mfields, .obj ufields =>
                        .ok (some
                          { model := jGetStr mfields "model" "unknown",
                            timestamp := jGetStr fields "timestamp" "",
                            input_tokens := jGetInt ufields "input_tokens",
                            output_tokens := jGetInt ufields "output_tokens",
                            cache_creation_input_tokens :=
                              jGetInt ufields "cache_creation_input_tokens",
                            cache_read_input_tokens :=
                              jGetInt ufields "cache_read_input_tokens",
                            session_id := jGetStr fields "sessionId" "",
                            project_dir := projectDir })
                    | _, _ => .error ()
      else .ok none
  | _ => .error ()

/-- The line loop of `parse_jsonl_file` (token_data.py lines 53-78) with the
outer exception absorption (lines 80-81): an undecodable line is skipped, a
line whose body raises ends the loop keeping `acc`. -/
def runLines (projectDir : String) (acc : List UsageRecord) :
    List (Option Json) → List UsageRecord
  | [] => acc
  | none :: rest => runLines projectDir acc rest
  | some j :: rest =>
      match lineStep projectDir j with
      | .error _ => acc
      | .ok none => runLines projectDir acc rest
      | .ok (some r) => runLines projectDir (acc ++ [r]) rest

/-- `TokenData.parse_jsonl_file` (token_data.py lines 47-83): an unopenable
file contributes no records, otherwise the lines are processed in order. -/
def parse_jsonl_file (projectDir : String)
    (file : Option (List (Option Json))) : List UsageRecord :=
  match file with
  | none => []
  | some lines => runLines projectDir [] lines

/-- One discovered `*.jsonl` file: its parent directory name and content. -/
structure FSFile where
  project_dir : String
  content : Option (List (Option Json))

/-- The mutable state of a `TokenData` instance: `self.usage_data`. -/
structure TokenDataState where
  usage_data : List UsageRecord
deriving DecidableEq

/-- `TokenData.load_data` (token_data.py lines 85-96).  `fs` models
`find_claude_data_dir()` plus the recursive glob: `none` when
`~/.claude/projects` does not exist — in which case the method returns early
and the collection is left as it was — otherwise the discovered files in
glob order.  When the root exists the collection is rebuilt from scratch
(`self.usage_data = []` then `extend` per file). -/
def load_data (fs : Option (List FSFile)) (s : TokenDataState) :
    TokenDataState :=
  match fs with
  | none => s
  | some files =>
      { usage_data := files.foldl
          (fun acc f => acc ++ parse_jsonl_file f.project_dir f.content) [] }

/-- `TokenData.__init__` (token_data.py lines 37-39): start empty, then
`load_data`. -/
def TokenDataState.init (fs : Option (List FSFile)) : TokenDataState :=
  load_data fs { usage_data := [] }

/-- The valid assistant-usage line of the spec's round-trip scenario (§8):
model `"claude-sonnet-4-20250514"`, `input_tokens = 1_000_000`, other
counts 0. -/
def validLine : Json :=
  .obj [("type", .str "assistant"),
        ("timestamp", .str "2025-01-01T10:00:00Z"),
        ("sessionId", .str "s1"),
        ("message", .obj [("model", .str "claude-sonnet-4-20250514"),
                          ("usage", .obj [("input_tokens", .num 1000000),
                                          ("output_tokens", .num 0),
                                          ("cache_creation_input_tokens",
                                            .num 0),
                                          ("cache_read_input_tokens",
                                            .num 0)])])]

/-- The record `validLine` parses to, for a file in directory `"proj"`. -/
def validRecord : UsageRecord :=
  { model := "claude-sonnet-4-20250514", timestamp := "2025-01-01T10:00:00Z",
    input_tokens := 1000000, output_tokens := 0,
    cache_creation_input_tokens := 0, cache_read_input_tokens := 0,
    session_id := "s1", project_dir := "proj" }

/-- A decodable line that is not an assistant message. -/
def nonAssistantLine : Json :=
  .obj [("type", .str "user"), ("message", .obj [("usage", .obj [])])]

/-- C3 (amended): an unopenable file contributes zero records; a line that
fails to decode as JSON is skipped without aborting; a line that decodes to
a JSON *object* failing the assistant-usage shape test (`type` not
`"assistant"`, or no `message` key) is skipped without aborting; a line
whose processing raises — in particular any valid-JSON line whose top level
is not an object — ends the processing of the file's remaining lines,
keeping the records already extracted; the spec's 3-line round-trip file
(valid assistant-usage line, non-assistant line, malformed line) yields
exactly the one record of the valid line, whose cost is 3. -/
theorem C3_parse_file (projectDir : String) (acc : List UsageRecord)
    (rest : List (Option Json)) (j : Json) :
    parse_jsonl_file projectDir none = []
    ∧ runLines projectDir acc (none :: rest) = runLines projectDir acc rest
    ∧ (lineStep projectDir j = .ok none →
        runLines projectDir acc (some j :: rest)
          = runLines projectDir acc rest)
    ∧ (∀ r, lineStep projectDir j = .ok (some r) →
        runLines projectDir acc (some j :: rest)
          = runLines projectDir (acc ++ [r]) rest)
    ∧ (lineStep projectDir j = .error () →
        runLines projectDir acc (some j :: rest) = acc)
    ∧ (∀ fields, isAssistant fields = false →
        lineStep projectDir (.obj fields) = .ok none)
    ∧ (∀ fields, jGet fields "message" = none →
        lineStep projectDir (.obj fields) = .ok none)
    ∧ (∀ n : Int, lineStep projectDir (.num n) = .error ())
    ∧ parse_jsonl_file "proj"
        (some [some validLine, some nonAssistantLine, none]) = [validRecord]
    ∧ calculate_cost validRecord = 3 := by
  refine ⟨rfl, rfl, ?_, ?_, ?_, ?_, ?_, fun n => rfl, rfl, ?_⟩
  · intro h
    show (match lineStep projectDir j with
      | .error _ => acc
      | .ok none => runLines projectDir acc rest
      | .ok (some r) => runLines projectDir (acc ++ [r]) rest)
        = runLines projectDir acc rest
    rw [h]
  · intro r h
    show (match lineStep projectDir j with
      | .error _ => acc
      | .ok none => runLines projectDir acc rest
      | .ok (some r) => runLines projectDir (acc ++ [r]) rest)
        = runLines projectDir (acc ++ [r]) rest
    rw [h]
  · intro h
    show (match lineStep projectDir j with
      | .error _ => acc
      | .ok none => runLines projectDir acc rest
      | .ok (some r) => runLines projectDir (acc ++ [r]) rest)
        = acc
    rw [h]
  · intro fields h
    simp [lineStep, h]
  · intro fields h
    by_cases ha : isAssistant fields = true
    · simp [lineStep, ha, h]
    · simp [lineStep, ha]
  · have h : lookupRates "claude-sonnet-4-20250514" = defaultRates := by rfl
    norm_num [calculate_cost, costWith, validRecord, h, defaultRates]

/-- C3 counterexample to the claim as stated: the file whose first line is
the valid JSON value `5` — which decodes but does not match the
assistant-usage shape — followed by a valid assistant-usage line, parses to
zero records: the non-matching line is not merely skipped, it aborts the
read of the remaining lines (`5 .get(...)` raises `AttributeError`, caught
only by the outer per-file handler).  The same valid line alone parses to
one record. -/
theorem C3_abort_counterexample :
    parse_jsonl_file "proj" (some [some (.num 5), some validLine]) = []
    ∧ parse_jsonl_file "proj" (some [some validLine]) = [validRecord]
    ∧ lineStep "proj" (.num 5) = .error () :=
  ⟨rfl, rfl, rfl⟩

lemma foldl_append_records (files : List FSFile) :
    ∀ acc : List UsageRecord,
      files.foldl
        (fun acc f => acc ++ parse_jsonl_file f.project_dir f.content) acc
      = acc
        ++ (files.map (fun f => parse_jsonl_file f.project_dir f.content)).flatten := by
  induction files with
  | nil => intro acc; simp
  | cons f rest ih =>
      intro acc
      simp only [List.foldl_cons, List.map_cons, List.flatten_cons, ih,
        List.append_assoc]

/-- C4 (amended): when the data root exists, `load_data` wholesale-replaces
the collection with the concatenation of `parse_jsonl_file` over the
discovered files — the previous collection is irrelevant (no incremental
merge); when the root is absent, `load_data` returns early and leaves the
previous collection unchanged, so a freshly initialized instance is empty
but a reload after the root disappears keeps the stale records. -/
theorem C4_reload (files : List FSFile) (s s2 : TokenDataState) :
    (load_data (some files) s).usage_data
      = (files.map (fun f => parse_jsonl_file f.project_dir f.content)).flatten
    ∧ load_data (some files) s = load_data (some files) s2
    ∧ load_data none s = s
    ∧ (TokenDataState.init none).usage_data = [] := by
  refine ⟨?_, rfl, rfl, rfl⟩
  show files.foldl
      (fun acc f => acc ++ parse_jsonl_file f.project_dir f.content) [] = _
  rw [foldl_append_records files []]
  exact List.nil_append _

/-- C4 counterexample to the claim as stated: a reload with the data root
absent does not produce an empty collection — `load_data` returns before
touching `self.usage_data`, so a previously loaded record survives. -/
theorem C4_absent_root_counterexample :
    (load_data none
        { usage_data := [mkRecord "m" "2025-01-01T00:00:00Z" 1 2 3 4] }).usage_data
      = [mkRecord "m" "2025-01-01T00:00:00Z" 1 2 3 4]
    ∧ (load_data none
        { usage_data := [mkRecord "m" "2025-01-01T00:00:00Z" 1 2 3 4] }).usage_data
      ≠ [] :=
  ⟨rfl, List.cons_ne_nil _ _⟩

end TokenCounter
